import Mathlib

/-!
Shallow embedding of the handwriting-board drawing core
(src/utils/geometry.ts, src/types.ts, src/unnamed/part_000, src/unnamed/part_001)
over exact rational arithmetic.  JavaScript numbers are modelled by the
rationals; comparisons against Euclidean distances (sqrt expressions) are
embedded sqrt-free via the exact equivalences
  hypot dx dy < r  iff  0 < r  and  dx^2 + dy^2 < r^2
  hypot dx dy > r  iff  r < 0  or  r^2 < dx^2 + dy^2
which hold because hypot is the nonnegative square root.
-/

namespace HWB

/-- Squaring over the rationals. -/
def sqr (a : ℚ) : ℚ := a * a

/-- Point record from src/types.ts: x, y and an optional pressure. -/
structure Pt where
  x : ℚ
  y : ℚ
  pressure : Option ℚ
  deriving DecidableEq

/-- Default point used for list indexing defaults (indices are always in
range at every use site, mirroring valid JS indexing). -/
def pt0 : Pt := ⟨0, 0, none⟩

/-- JS expression p.pressure || 0.5 (src/utils/geometry.ts line 34): a missing
pressure, and also a zero pressure (falsy in JS), fall back to 0.5. -/
def prOr (p : Option ℚ) : ℚ :=
  match p with
  | none => 1/2
  | some q => if q = 0 then 1/2 else q

/-- Squared Euclidean distance of two points (hypot of the code squared). -/
def dist2 (a b : Pt) : ℚ := sqr (a.x - b.x) + sqr (a.y - b.y)

/-- The steps count of getSplinePoints (src/utils/geometry.ts line 28):
Math.floor(distance(p0,p1) / 2) + 1.  For rational coordinates
floor(hypot/2) = floor(sqrt(d2)/4 ... ) is computed exactly as
Nat.sqrt of the floor of d2/4, because for a real x at least 0
the floor of its square root equals Nat.sqrt of its floor. -/
def strokeSteps (a b : Pt) : ℕ := Nat.sqrt (dist2 a b / 4).floor.toNat + 1

/-- One linear interpolant of getSplinePoints (src/utils/geometry.ts
lines 31-35), at parameter t. -/
def lerpPt (p0 p1 : Pt) (t : ℚ) : Pt :=
  { x := p0.x + (p1.x - p0.x) * t
  , y := p0.y + (p1.y - p0.y) * t
  , pressure := some (prOr p0.pressure + (prOr p1.pressure - prOr p0.pressure) * t) }

/-- The inner loop of getSplinePoints (lines 29-36): interpolants at
parameters t / steps for t = 1, ..., steps - 1. -/
def interPoints (p0 p1 : Pt) : List Pt :=
  (List.range' 1 (strokeSteps p0 p1 - 1)).map
    (fun t : ℕ => lerpPt p0 p1 ((t : ℚ) / (strokeSteps p0 p1 : ℚ)))

/-- getSplinePoints from src/utils/geometry.ts lines 16-43: inputs of
length below 3 are returned unchanged; otherwise the first point, then for
each i with 1 <= i < length - 2 the interpolants between points i and i+1
followed by point i+1, then the last point. -/
def getSplinePoints (points : List Pt) : List Pt :=
  if points.length < 3 then points
  else
    points.getD 0 pt0 ::
      (List.flatten ((List.range' 1 (points.length - 3)).map (fun i =>
        interPoints (points.getD i pt0) (points.getD (i+1) pt0)
          ++ [points.getD (i+1) pt0])))
      ++ [points.getD (points.length - 1) pt0]

/-- Squared distance of two plane vectors. -/
def distSqV (a b : ℚ × ℚ) : ℚ := sqr (a.1 - b.1) + sqr (a.2 - b.2)

/-- distanceToSegment from src/utils/geometry.ts lines 7-13, squared:
the projection parameter t is rational, so the squared distance is exact;
only the final square root is omitted. -/
def distToSegSq (p v w : ℚ × ℚ) : ℚ :=
  let l2 := sqr (v.1 - w.1) + sqr (v.2 - w.2)
  if l2 = 0 then distSqV p v
  else
    let t := max 0 (min 1 (((p.1 - v.1) * (w.1 - v.1) + (p.2 - v.2) * (w.2 - v.2)) / l2))
    distSqV p (v.1 + t * (w.1 - v.1), v.2 + t * (w.2 - v.2))

/-- Embedding of the float comparison hypot dx dy < r (exact). -/
def hypotLtB (dx dy r : ℚ) : Bool := decide (0 < r ∧ sqr dx + sqr dy < sqr r)

/-- Embedding of the float comparison hypot dx dy > r (exact). -/
def hypotGtB (dx dy r : ℚ) : Bool := decide (r < 0 ∨ sqr r < sqr dx + sqr dy)

/-- Embedding of the float comparison distanceToSegment p v w > r (exact). -/
def distSegGtB (p v w : ℚ × ℚ) (r : ℚ) : Bool := decide (r < 0 ∨ sqr r < distToSegSq p v w)

/-- Specification-side predicate: the distance whose square is d2 is
strictly below r. -/
def SqLt (d2 r : ℚ) : Prop := 0 < r ∧ d2 < r * r

/-- Specification-side predicate: the distance whose square is d2 is at
most r. -/
def SqLe (d2 r : ℚ) : Prop := 0 ≤ r ∧ d2 ≤ r * r

instance (d2 r : ℚ) : Decidable (SqLt d2 r) := by unfold SqLt; infer_instance
instance (d2 r : ℚ) : Decidable (SqLe d2 r) := by unfold SqLe; infer_instance

/-! Data model from src/types.ts. -/

/-- ToolType from src/types.ts line 35. -/
inductive ToolType where
  | pen | eraser | rectangle | circle | line | text | move
  deriving DecidableEq

/-- ElementType from src/types.ts line 13. -/
inductive ElementType where
  | stroke | rectangle | circle | line | text
  deriving DecidableEq

/-- StrokeStyle from src/types.ts lines 7-11. -/
structure StrokeStyle where
  color : String
  size : ℚ
  isHighlighter : Option Bool
  deriving DecidableEq

/-- CanvasElement from src/types.ts lines 15-26, with the optional fields
kept optional exactly as in the source. -/
structure CanvasElement where
  id : String
  type : ElementType
  layerId : String
  points : Option (List Pt)
  x : Option ℚ
  y : Option ℚ
  width : Option ℚ
  height : Option ℚ
  text : Option String
  style : StrokeStyle
  deriving DecidableEq

/-- Layer from src/types.ts lines 28-33. -/
structure Layer where
  id : String
  name : String
  visible : Bool
  locked : Bool
  deriving DecidableEq

/-- AppState from src/types.ts lines 37-48 (the document, view and history
state mutated by the handlers in src/unnamed/part_000). -/
structure AppState where
  elements : List CanvasElement
  layers : List Layer
  activeLayerId : String
  selectedTool : ToolType
  currentColor : String
  currentSize : ℚ
  zoom : ℚ
  pan : ℚ × ℚ
  history : List (List CanvasElement)
  historyStep : ℕ
  deriving DecidableEq

/-! View transform, src/unnamed/part_000 lines 44-58 and 377-412. -/

/-- screenToWorld (lines 44-50): origin is the drawing surface's top-left
in client coordinates (rect.left, rect.top). -/
def screenToWorld (origin pan : ℚ × ℚ) (zoom : ℚ) (s : ℚ × ℚ) : ℚ × ℚ :=
  ((s.1 - origin.1 - pan.1) / zoom, (s.2 - origin.2 - pan.2) / zoom)

/-- worldToScreen (lines 53-58).  Note: the origin is not added back. -/
def worldToScreen (pan : ℚ × ℚ) (zoom : ℚ) (w : ℚ × ℚ) : ℚ × ℚ :=
  (w.1 * zoom + pan.1, w.2 * zoom + pan.2)

/-- The zoom step shared verbatim by handleWheel (lines 377-399, where
delta is plus or minus 0.1 and target is the pointer position relative to
the surface) and changeZoom (lines 401-412, where delta is the toolbar
step and target is the window centre): clamp the new zoom into
[0.1, 5], take the world point currently under the target, and solve the
new pan so that the same world point stays under the target.  Returns
(newZoom, newPan). -/
def zoomAt (target : ℚ × ℚ) (delta zoom : ℚ) (pan : ℚ × ℚ) : ℚ × (ℚ × ℚ) :=
  let newZoom := min (max (1/10) (zoom + delta)) 5
  let wx := (target.1 - pan.1) / zoom
  let wy := (target.2 - pan.2) / zoom
  (newZoom, (target.1 - wx * newZoom, target.2 - wy * newZoom))

/-! History manager, src/unnamed/part_000 lines 71-105. -/

/-- saveHistory (lines 71-85): truncate the redo tail, append the new
snapshot, evict the oldest entry when the length exceeds 50, point the
cursor at the new tail, and make the snapshot live. -/
def saveHistory (newElements : List CanvasElement) (s : AppState) : AppState :=
  let pushed := s.history.take (s.historyStep + 1) ++ [newElements]
  let newHistory := if 50 < pushed.length then pushed.drop 1 else pushed
  { s with elements := newElements
         , history := newHistory
         , historyStep := newHistory.length - 1 }

/-- undo (lines 87-95).  The indexing default [] is never reached in
states where the cursor is in bounds, as in the source. -/
def undo (s : AppState) : AppState :=
  if 0 < s.historyStep then
    { s with historyStep := s.historyStep - 1
           , elements := s.history.getD (s.historyStep - 1) [] }
  else s

/-- redo (lines 97-105); the bound length - 1 is natural subtraction,
which agrees with the JS comparison historyStep < history.length - 1
because historyStep is nonnegative. -/
def redo (s : AppState) : AppState :=
  if s.historyStep < s.history.length - 1 then
    { s with historyStep := s.historyStep + 1
           , elements := s.history.getD (s.historyStep + 1) [] }
  else s

/-- Committing a sequence of snapshots in order, one saveHistory each. -/
def commitAll (snaps : List (List CanvasElement)) (s : AppState) : AppState :=
  snaps.foldl (fun st es => saveHistory es st) s

/-! Eraser engine, src/unnamed/part_000 lines 264-301. -/

/-- The per-element keep predicate of the eraser branch of
handlePointerMove (lines 270-297), for cursor world position pos, the
active layer id and the current tool size (eraser radius = size * 2).
The non-null assertions of the source (el.y!, el.width!, el.height!) are
rendered as getD 0; they are only reached for elements whose fields are
populated for their kind, which the constructors below always ensure. -/
def eraseKeep (pos : ℚ × ℚ) (active : String) (size : ℚ) (el : CanvasElement) : Bool :=
  if el.layerId ≠ active then true
  else if el.type = ElementType.stroke ∧ el.points.isSome then
    !((el.points.getD []).any (fun p => hypotLtB (p.x - pos.1) (p.y - pos.2) (size * 2)))
  else if (el.type = ElementType.rectangle ∨ el.type = ElementType.circle) ∧ el.x.isSome then
    hypotGtB (el.x.getD 0 + el.width.getD 0 / 2 - pos.1)
             (el.y.getD 0 + el.height.getD 0 / 2 - pos.2)
             (max |el.width.getD 0| |el.height.getD 0| / 2 + size * 2)
  else if el.type = ElementType.line ∧ el.x.isSome ∧ el.width.isSome ∧ el.height.isSome then
    distSegGtB pos (el.x.getD 0, el.y.getD 0)
      (el.x.getD 0 + el.width.getD 0, el.y.getD 0 + el.height.getD 0)
      (max 5 size + 5)
  else if el.type = ElementType.text ∧ el.x.isSome then
    hypotGtB (el.x.getD 0 - pos.1) (el.y.getD 0 - pos.2) 20
  else true

/-- One eraser evaluation (lines 270-301): the surviving element list. -/
def eraseElements (pos : ℚ × ℚ) (s : AppState) : List CanvasElement :=
  s.elements.filter (eraseKeep pos s.activeLayerId s.currentSize)

/-! Gesture commit, src/unnamed/part_000 lines 208-358. -/

/-- getActiveLayer (line 68). -/
def getActiveLayer (s : AppState) : Option Layer :=
  s.layers.find? (fun l => l.id == s.activeLayerId)

/-- The guard of handlePointerDown for every non-move tool (lines
217-218): the gesture starts only when the active layer id resolves and
the layer is not locked.  Visibility is not consulted. -/
def canStartGesture (s : AppState) : Bool :=
  match getActiveLayer s with
  | none => false
  | some l => !l.locked

/-- A committed stroke element (lines 325-331). -/
def mkStrokeElem (newId layerId : String) (pts : List Pt) (color : String) (size : ℚ) :
    CanvasElement :=
  { id := newId, type := ElementType.stroke, layerId := layerId, points := some pts
  , x := none, y := none, width := none, height := none, text := none
  , style := { color := color, size := size, isHighlighter := none } }

/-- A committed shape element (lines 339-348). -/
def mkShapeElem (newId : String) (ty : ElementType) (layerId : String)
    (x y w h : ℚ) (color : String) (size : ℚ) : CanvasElement :=
  { id := newId, type := ty, layerId := layerId, points := none
  , x := some x, y := some y, width := some w, height := some h, text := none
  , style := { color := color, size := size, isHighlighter := none } }

/-- The shape branch of handlePointerUp (lines 334-351): commit only when
the drag spans more than 5 world units on some axis. -/
def shapeCommit (newId : String) (ty : ElementType) (layerId : String)
    (dragStart : Option Pt) (endPos : Pt) (s : AppState) : AppState :=
  match dragStart with
  | none => s
  | some d =>
    let w := endPos.x - d.x
    let h := endPos.y - d.y
    if 5 < |w| ∨ 5 < |h| then
      saveHistory (s.elements ++
        [mkShapeElem newId ty layerId d.x d.y w h s.currentColor s.currentSize]) s
    else s

/-- handlePointerUp (lines 309-358) restricted to its effect on AppState;
isDrawing, currentPoints, dragStart and the pointer-up world position are
passed explicitly, and newId stands for the generated element id. -/
def handlePointerUp (newId : String) (isDrawing : Bool) (currentPoints : List Pt)
    (dragStart : Option Pt) (endPos : Pt) (s : AppState) : AppState :=
  if !isDrawing then s
  else if s.selectedTool = ToolType.move then s
  else
    match getActiveLayer s with
    | none => s
    | some layer =>
      if layer.locked then s
      else
        match s.selectedTool with
        | ToolType.pen =>
          saveHistory (s.elements ++
            [mkStrokeElem newId layer.id (getSplinePoints currentPoints)
              s.currentColor s.currentSize]) s
        | ToolType.rectangle => shapeCommit newId ElementType.rectangle layer.id dragStart endPos s
        | ToolType.circle => shapeCommit newId ElementType.circle layer.id dragStart endPos s
        | ToolType.line => shapeCommit newId ElementType.line layer.id dragStart endPos s
        | ToolType.eraser => saveHistory s.elements s
        | _ => s

/-! Document load, src/unnamed/part_000 lines 434-485. -/

/-- The parsed JSON payload: each field is some value exactly when it is
present and is an array (the source checks Array.isArray). -/
structure RawDoc where
  elements : Option (List CanvasElement)
  layers : Option (List Layer)
  deriving DecidableEq

/-- The default layer substituted on load (line 459), identical to the
initial layer. -/
def defaultLayer : Layer := { id := "layer-1", name := "Layer 1", visible := true, locked := false }

/-- The reader.onload body of handleFileChange (lines 448-483): none
stands for malformed JSON (the catch branch).  The Bool of the result is
true exactly when an error is surfaced to the user; in both error cases
the state is returned untouched. -/
def loadDoc (d : Option RawDoc) (s : AppState) : AppState × Bool :=
  match d with
  | none => (s, true)
  | some data =>
    match data.elements with
    | none => (s, true)
    | some es =>
      let newLayers :=
        match data.layers with
        | some ls => if 0 < ls.length then ls else [defaultLayer]
        | none => [defaultLayer]
      ({ s with elements := es
              , layers := newLayers
              , activeLayerId := (newLayers.getD 0 defaultLayer).id
              , zoom := 1
              , pan := (0, 0)
              , history := [es]
              , historyStep := 0 }, false)

/-! Layer deletion, src/unnamed/part_000 lines 584-593 guarded by the
layer panel, src/unnamed/part_001 lines 61-68. -/

/-- The onDelete handler (part_000 lines 584-593): drop the layer and, if
it was active, point the active id at the last remaining layer, falling
back to the empty string when none remain. -/
def onDelete (d : String) (s : AppState) : AppState :=
  let newLayers := s.layers.filter (fun l => l.id != d)
  { s with layers := newLayers
         , activeLayerId :=
             if s.activeLayerId = d then
               match newLayers.getLast? with
               | some l => l.id
               | none => ""
             else s.activeLayerId }

/-- Layer deletion as reachable through the UI: the delete button is
rendered only when more than one layer exists (src/unnamed/part_001
line 61), so deleting the last layer is rejected. -/
def deleteLayer (d : String) (s : AppState) : AppState :=
  if 1 < s.layers.length then onDelete d s else s

/-! Concrete inputs used by witnesses and counterexamples. -/

/-- The initial application state (src/unnamed/part_000 lines 19-30). -/
def st0 : AppState :=
  ⟨[], [defaultLayer], "layer-1", ToolType.pen, "#000000", 4, 1, (0, 0), [[]], 0⟩

/-- An initial-like state whose history is empty. -/
def stEmptyHist : AppState :=
  ⟨[], [defaultLayer], "layer-1", ToolType.pen, "#000000", 4, 1, (0, 0), [], 0⟩

/-- A concrete committed stroke snapshot element. -/
def elA : CanvasElement := mkStrokeElem "a" "layer-1" [] "#000000" 4

/-- A second concrete committed stroke snapshot element. -/
def elB : CanvasElement := mkStrokeElem "b" "layer-1" [] "#000000" 4

/-- A family of pairwise distinct snapshots (distinct lengths). -/
def snapW : ℕ → List CanvasElement := fun i => List.replicate i elA

/-- A concrete three-point polyline. -/
def cps : List Pt := [⟨0, 0, none⟩, ⟨1, 0, none⟩, ⟨2, 0, none⟩]

/-- A rectangle element whose centroid (1,1) lies at distance exactly 3
from the eraser cursor used in the boundary counterexample. -/
def eRectC : CanvasElement :=
  ⟨"r1", ElementType.rectangle, "L", none, some 0, some 0, some 2, some 2, none,
    ⟨"#000000", 1, none⟩⟩

/-- State holding only eRectC on the active layer, tool size 1 (eraser
radius 2). -/
def stEraseC : AppState :=
  ⟨[eRectC], [⟨"L", "Layer 1", true, false⟩], "L", ToolType.eraser, "#000000", 1, 1,
    (0, 0), [[]], 0⟩

/-- A stroke element through the origin on layer L. -/
def eStrokeW : CanvasElement := mkStrokeElem "s1" "L" [pt0] "#000000" 4

/-- State holding eStrokeW on the active layer, tool size 1. -/
def stEraseW : AppState :=
  ⟨[eStrokeW], [⟨"L", "Layer 1", true, false⟩], "L", ToolType.eraser, "#000000", 1, 1,
    (0, 0), [[]], 0⟩

/-- State whose active layer is invisible but unlocked. -/
def stInvisible : AppState :=
  ⟨[], [⟨"L", "Layer 1", false, false⟩], "L", ToolType.pen, "#000000", 4, 1,
    (0, 0), [[]], 0⟩

/-- State whose active layer is locked. -/
def stLocked : AppState :=
  ⟨[], [⟨"L", "Layer 1", true, true⟩], "L", ToolType.pen, "#000000", 4, 1,
    (0, 0), [[]], 0⟩

/-- State with the eraser tool selected and an unlocked active layer. -/
def stEraserTool : AppState :=
  ⟨[], [⟨"L", "Layer 1", true, false⟩], "L", ToolType.eraser, "#000000", 4, 1,
    (0, 0), [[]], 0⟩

/-- A parsed document with empty element and layer arrays. -/
def rawW : RawDoc := ⟨some [], some []⟩

/-- State with two layers, the second one active. -/
def stTwoLayers : AppState :=
  ⟨[], [⟨"layer-1", "Layer 1", true, false⟩, ⟨"L2", "Layer 2", true, false⟩], "L2",
    ToolType.pen, "#000000", 4, 1, (0, 0), [[]], 0⟩

/-! Helper lemmas. -/

theorem interPoints_length (p0 p1 : Pt) :
    (interPoints p0 p1).length = strokeSteps p0 p1 - 1 := by
  unfold interPoints
  rw [List.length_map, List.length_range']

theorem strokeSteps_pos (p0 p1 : Pt) : 1 ≤ strokeSteps p0 p1 := by
  simp [strokeSteps]

theorem saveHistory_history (es : List CanvasElement) (s : AppState) :
    (saveHistory es s).history =
      (if 50 < (s.history.take (s.historyStep + 1)).length + 1
       then (s.history.take (s.historyStep + 1)).drop 1
       else s.history.take (s.historyStep + 1)) ++ [es] := by
  simp only [saveHistory]
  by_cases hc : 50 < (List.take (s.historyStep + 1) s.history ++ [es]).length
  · have hc' : 50 < (s.history.take (s.historyStep + 1)).length + 1 := by
      simpa using hc
    rw [if_pos hc, if_pos hc']
    rw [List.drop_append_of_le_length (by omega)]
  · have hc' : ¬ 50 < (s.history.take (s.historyStep + 1)).length + 1 := by
      simpa using hc
    rw [if_neg hc, if_neg hc']

theorem saveHistory_step (es : List CanvasElement) (s : AppState) :
    (saveHistory es s).historyStep = (saveHistory es s).history.length - 1 := rfl

theorem saveHistory_elements (es : List CanvasElement) (s : AppState) :
    (saveHistory es s).elements = es := rfl

theorem commit_twice (s : AppState) (A B : List CanvasElement) :
    ∃ pre2 : List (List CanvasElement), pre2 ≠ []
      ∧ (saveHistory B (saveHistory A s)).history = pre2 ++ [B]
      ∧ (saveHistory B (saveHistory A s)).historyStep = pre2.length
      ∧ pre2.getLast? = some A := by
  set s1 := saveHistory A s with hs1
  have h1 : s1.history =
      (if 50 < (s.history.take (s.historyStep + 1)).length + 1
       then (s.history.take (s.historyStep + 1)).drop 1
       else s.history.take (s.historyStep + 1)) ++ [A] := saveHistory_history A s
  set P1 := (if 50 < (s.history.take (s.historyStep + 1)).length + 1
       then (s.history.take (s.historyStep + 1)).drop 1
       else s.history.take (s.historyStep + 1)) with hP1
  have hstep1 : s1.historyStep = s1.history.length - 1 := saveHistory_step A s
  have hlen1 : s1.history.length = P1.length + 1 := by rw [h1]; simp
  have htake : s1.history.take (s1.historyStep + 1) = P1 ++ [A] := by
    rw [hstep1, hlen1]
    have : P1.length + 1 - 1 + 1 = P1.length + 1 := by omega
    rw [this, ← hlen1, ← h1]
    exact List.take_of_length_le (le_refl _)
  have h2 : (saveHistory B s1).history =
      (if 50 < (s1.history.take (s1.historyStep + 1)).length + 1
       then (s1.history.take (s1.historyStep + 1)).drop 1
       else s1.history.take (s1.historyStep + 1)) ++ [B] := saveHistory_history B s1
  rw [htake] at h2
  by_cases hc : 50 < (P1 ++ [A]).length + 1
  · rw [if_pos hc] at h2
    have hP1len : 1 ≤ P1.length := by simp at hc; omega
    have hdrop : (P1 ++ [A]).drop 1 = P1.drop 1 ++ [A] :=
      List.drop_append_of_le_length (by omega)
    refine ⟨P1.drop 1 ++ [A], by simp, ?_, ?_, ?_⟩
    · rw [h2, hdrop]
    · rw [saveHistory_step, h2, hdrop]
      simp
    · exact List.getLast?_concat _
  · rw [if_neg hc] at h2
    refine ⟨P1 ++ [A], by simp, h2, ?_, List.getLast?_concat _⟩
    rw [saveHistory_step, h2]
    simp

theorem getD_last_of_concat (pre : List (List CanvasElement)) (A B : List CanvasElement)
    (hne : pre ≠ []) (hlast : pre.getLast? = some A) :
    (pre ++ [B]).getD (pre.length - 1) [] = A := by
  have hlen : 1 ≤ pre.length := List.length_pos.mpr hne
  rw [List.getD_eq_getElem?_getD, List.getElem?_append_left (by omega)]
  rw [List.getLast?_eq_getElem?] at hlast
  rw [hlast]
  rfl

theorem commitAll_append_one (M : List (List CanvasElement)) (a : List CanvasElement)
    (s0 : AppState) : commitAll (M ++ [a]) s0 = saveHistory a (commitAll M s0) := by
  unfold commitAll
  rw [List.foldl_append]
  rfl

theorem commitAll_from_empty (L : List (List CanvasElement)) (s0 : AppState)
    (h0 : s0.history = []) (hL : L ≠ []) :
    (commitAll L s0).history = L.drop (L.length - 50)
    ∧ (commitAll L s0).historyStep = (commitAll L s0).history.length - 1
    ∧ some ((commitAll L s0).elements) = L.getLast? := by
  induction L using List.reverseRecOn with
  | nil => simp at hL
  | append_singleton M a ih =>
    rw [commitAll_append_one]
    by_cases hM : M = []
    · subst hM
      simp only [List.nil_append]
      have h1 : (commitAll [] s0).history = [] := h0
      have hh : (saveHistory a (commitAll [] s0)).history = [a] := by
        rw [saveHistory_history, h1]
        simp
      refine ⟨?_, saveHistory_step a _, ?_⟩
      · rw [hh]; simp
      · rw [saveHistory_elements]; simp
    · obtain ⟨ihh, ihs, ihe⟩ := ih hM
      set st := commitAll M s0 with hst
      have hMpos : 1 ≤ M.length := List.length_pos.mpr hM
      have hlenh : st.history.length = M.length - (M.length - 50) := by
        rw [ihh, List.length_drop]
      have hhpos : 1 ≤ st.history.length := by omega
      have htake : st.history.take (st.historyStep + 1) = st.history := by
        rw [ihs]
        exact List.take_of_length_le (by omega)
      have hh := saveHistory_history a st
      rw [htake] at hh
      refine ⟨?_, saveHistory_step a st, ?_⟩
      · by_cases hc : 50 ≤ M.length
        · have hcond : 50 < st.history.length + 1 := by omega
          rw [if_pos hcond] at hh
          rw [hh, ihh, List.drop_drop, List.drop_append_of_le_length
            (by simp only [List.length_append, List.length_singleton]; omega)]
          have harith : M.length - 50 + 1 = (M ++ [a]).length - 50 := by
            simp only [List.length_append, List.length_singleton]; omega
          rw [harith]
        · have hcond : ¬ 50 < st.history.length + 1 := by omega
          rw [if_neg hcond] at hh
          rw [hh, ihh]
          have hz : M.length - 50 = 0 := by omega
          have hz2 : (M ++ [a]).length - 50 = 0 := by simp; omega
          rw [hz, hz2]
          simp
      · rw [saveHistory_elements]
        rw [List.getLast?_concat]

theorem layer_mem_filter_of_ne (b : Layer) (d : String) (h : b.id ≠ d)
    (ls : List Layer) (hm : b ∈ ls) : b ∈ ls.filter (fun l => l.id != d) := by
  refine List.mem_filter.mpr ⟨hm, ?_⟩
  simp only [bne_iff_ne, ne_eq, decide_not]
  simp [h]

/-! Claim theorems. -/

/-- C1 (counterexample): the claimed round trip
worldToScreen(screenToWorld(sx, sy)) = (sx, sy) fails when the drawing
surface's top-left is not the screen origin: with origin (10, 0),
pan (0, 0) and zoom 1 (inside [0.1, 5]), the round trip of (0, 0)
returns (-10, 0), because worldToScreen never adds the origin back. -/
theorem transform_roundtrip_cex :
    worldToScreen (0, 0) 1 (screenToWorld ((10 : ℚ), 0) (0, 0) 1 (0, 0))
      ≠ ((0 : ℚ), (0 : ℚ)) := by
  simp [worldToScreen, screenToWorld]

/-- C1 (amended): for every screen point, every zoom in [0.1, 5] and
every pan, worldToScreen(screenToWorld(sx, sy)) equals
(sx - originX, sy - originY) exactly; in particular it equals (sx, sy)
whenever the drawing surface's top-left is the screen origin (0, 0). -/
theorem transform_roundtrip (origin pan s : ℚ × ℚ) (zoom : ℚ)
    (hz1 : (1 : ℚ)/10 ≤ zoom) (hz2 : zoom ≤ 5) :
    worldToScreen pan zoom (screenToWorld origin pan zoom s) = (s.1 - origin.1, s.2 - origin.2)
    ∧ (origin = (0, 0) →
        worldToScreen pan zoom (screenToWorld origin pan zoom s) = s) := by
  have hz : zoom ≠ 0 := by intro h; rw [h] at hz1; norm_num at hz1
  constructor
  · simp only [worldToScreen, screenToWorld]
    refine Prod.ext ?_ ?_ <;> field_simp
  · rintro rfl
    simp only [worldToScreen, screenToWorld]
    refine Prod.ext ?_ ?_ <;> field_simp

/-- C1 (witness): concrete instance with origin (0, 0), pan (3, 4),
zoom 2, screen point (5, 6). -/
theorem transform_roundtrip_witness :
    worldToScreen ((3 : ℚ), (4 : ℚ)) 2
      (screenToWorld ((0 : ℚ), (0 : ℚ)) ((3 : ℚ), (4 : ℚ)) 2 ((5 : ℚ), (6 : ℚ)))
      = ((5 : ℚ), (6 : ℚ)) :=
  (transform_roundtrip (0, 0) (3, 4) (5, 6) 2 (by norm_num) (by norm_num)).2 rfl

/-- C2: after the zoom step shared by pointer-wheel zoom and toolbar
zoom (zoomAt with the target expressed relative to the surface origin),
screenToWorld of the target screen point is exactly unchanged, for every
starting zoom in [0.1, 5], every pan and every delta. -/
theorem zoom_at_invariant (origin pan : ℚ × ℚ) (zoom delta : ℚ) (t : ℚ × ℚ)
    (hz1 : (1 : ℚ)/10 ≤ zoom) (hz2 : zoom ≤ 5) :
    screenToWorld origin (zoomAt (t.1 - origin.1, t.2 - origin.2) delta zoom pan).2
        (zoomAt (t.1 - origin.1, t.2 - origin.2) delta zoom pan).1 t
      = screenToWorld origin pan zoom t := by
  have hz : zoom ≠ 0 := by intro h; rw [h] at hz1; norm_num at hz1
  have hz' : min (max (1/10) (zoom + delta)) 5 ≠ 0 := by
    have : (1/10 : ℚ) ≤ min (max (1/10) (zoom + delta)) 5 :=
      le_min (le_max_left _ _) (by norm_num)
    intro h; rw [h] at this; norm_num at this
  simp only [zoomAt, screenToWorld]
  refine Prod.ext ?_ ?_ <;> field_simp <;> ring

/-- C2 (witness): concrete instance with origin (0, 0), pan (0, 0),
zoom 1, delta 0.1, target (5, 5). -/
theorem zoom_at_invariant_witness :
    screenToWorld ((0 : ℚ), (0 : ℚ))
        (zoomAt (((5 : ℚ), (5 : ℚ)).1 - ((0 : ℚ), (0 : ℚ)).1,
          ((5 : ℚ), (5 : ℚ)).2 - ((0 : ℚ), (0 : ℚ)).2) (1/10) 1 ((0 : ℚ), (0 : ℚ))).2
        (zoomAt (((5 : ℚ), (5 : ℚ)).1 - ((0 : ℚ), (0 : ℚ)).1,
          ((5 : ℚ), (5 : ℚ)).2 - ((0 : ℚ), (0 : ℚ)).2) (1/10) 1 ((0 : ℚ), (0 : ℚ))).1
        ((5 : ℚ), (5 : ℚ))
      = screenToWorld ((0 : ℚ), (0 : ℚ)) ((0 : ℚ), (0 : ℚ)) 1 ((5 : ℚ), (5 : ℚ)) :=
  zoom_at_invariant (0, 0) (0, 0) 1 (1/10) (5, 5) (by norm_num) (by norm_num)

/-- C3: getSplinePoints returns inputs of length below 3 unchanged; for
length at least 3 it preserves the first and last points verbatim and
equals the first point, then for each pair index i in [1, n - 2) the
evenly spaced interpolants at parameters t / steps (t = 1, ..., steps - 1,
steps = floor(distance / 2) + 1, pressure interpolated with the 0.5
fallback) followed by the pair's second point, then the last point; the
output length is 2 plus the sum of the steps values.  The function is a
pure function of its input, hence deterministic. -/
theorem resample_spec :
    (∀ ps : List Pt, ps.length < 3 → getSplinePoints ps = ps)
    ∧ (∀ ps : List Pt, 3 ≤ ps.length →
        (getSplinePoints ps).head? = ps.head?
        ∧ (getSplinePoints ps).getLast? = ps.getLast?
        ∧ getSplinePoints ps =
            ps.getD 0 pt0 ::
              (List.flatten ((List.range' 1 (ps.length - 3)).map (fun i =>
                ((List.range' 1 (strokeSteps (ps.getD i pt0) (ps.getD (i+1) pt0) - 1)).map
                  (fun t : ℕ => lerpPt (ps.getD i pt0) (ps.getD (i+1) pt0)
                    ((t : ℚ) / (strokeSteps (ps.getD i pt0) (ps.getD (i+1) pt0) : ℚ))))
                ++ [ps.getD (i+1) pt0])))
              ++ [ps.getD (ps.length - 1) pt0]
        ∧ (getSplinePoints ps).length =
            2 + (((List.range' 1 (ps.length - 3)).map (fun i =>
              strokeSteps (ps.getD i pt0) (ps.getD (i+1) pt0))).sum)) := by
  constructor
  · intro ps h
    simp [getSplinePoints, h]
  · intro ps h
    have hnl : ¬ ps.length < 3 := by omega
    have hne : ps ≠ [] := by
      intro hh; rw [hh] at h; simp at h
    have hgd : ps.head? = some (ps.getD 0 pt0) := by
      cases ps with
      | nil => simp at hne
      | cons a l => simp [List.getD]
    have hlast : ps.getLast? = some (ps.getD (ps.length - 1) pt0) := by
      rw [List.getLast?_eq_getElem? ps, List.getD_eq_getElem?_getD,
        List.getElem?_eq_getElem (by omega)]
      simp
    refine ⟨?_, ?_, ?_, ?_⟩
    · rw [hgd]
      simp [getSplinePoints, hnl]
    · rw [hlast]
      simp only [getSplinePoints, hnl, if_false]
      rw [List.getLast?_concat]
    · simp [getSplinePoints, hnl, interPoints]
    · simp only [getSplinePoints, hnl, if_false]
      rw [List.length_append, List.length_cons, List.length_flatten]
      simp only [List.map_map, List.length_singleton]
      have heq : ((List.range' 1 (ps.length - 3)).map
          (List.length ∘ fun i =>
            interPoints (ps.getD i pt0) (ps.getD (i+1) pt0) ++ [ps.getD (i+1) pt0]))
          = (List.range' 1 (ps.length - 3)).map (fun i =>
              strokeSteps (ps.getD i pt0) (ps.getD (i+1) pt0)) := by
        refine List.map_congr_left (fun i _ => ?_)
        have h1 := strokeSteps_pos (ps.getD i pt0) (ps.getD (i+1) pt0)
        simp only [Function.comp_apply, List.length_append, List.length_singleton,
          interPoints_length]
        omega
      rw [heq]
      omega

/-- C3 (witness): the three-point polyline cps keeps its first and last
points verbatim. -/
theorem resample_spec_witness :
    (getSplinePoints cps).head? = cps.head?
    ∧ (getSplinePoints cps).getLast? = cps.getLast? :=
  ⟨(resample_spec.2 cps (by decide)).1, (resample_spec.2 cps (by decide)).2.1⟩

/-- C4: after commit(A) then commit(B) from any state, undo restores
exactly A and a subsequent redo restores exactly B; undo at cursor 0 and
redo at the tail change nothing at all. -/
theorem history_undo_redo (s : AppState) (A B : List CanvasElement) :
    (undo (saveHistory B (saveHistory A s))).elements = A
    ∧ (redo (undo (saveHistory B (saveHistory A s)))).elements = B
    ∧ (∀ t : AppState, t.historyStep = 0 → undo t = t)
    ∧ (∀ t : AppState, t.historyStep = t.history.length - 1 → redo t = t) := by
  obtain ⟨pre2, hne, hhist, hstep, hlast⟩ := commit_twice s A B
  set s2 := saveHistory B (saveHistory A s) with hs2
  have hlen : 1 ≤ pre2.length := List.length_pos.mpr hne
  have h0 : 0 < s2.historyStep := by omega
  have hu_el : (undo s2).elements = s2.history.getD (s2.historyStep - 1) [] := by
    unfold undo
    rw [if_pos h0]
  have hu_step : (undo s2).historyStep = s2.historyStep - 1 := by
    unfold undo
    rw [if_pos h0]
  have hu_hist : (undo s2).history = s2.history := by
    unfold undo
    rw [if_pos h0]
  have hAel : (undo s2).elements = A := by
    rw [hu_el, hhist, hstep]
    exact getD_last_of_concat pre2 A B hne hlast
  refine ⟨hAel, ?_, ?_, ?_⟩
  · have hr : (undo s2).historyStep < (undo s2).history.length - 1 := by
      rw [hu_step, hu_hist, hhist, hstep]
      simp only [List.length_append, List.length_singleton]
      omega
    have hr_el : (redo (undo s2)).elements =
        (undo s2).history.getD ((undo s2).historyStep + 1) [] := by
      unfold redo
      rw [if_pos hr]
    rw [hr_el, hu_hist, hu_step, hhist, hstep]
    have harith : pre2.length - 1 + 1 = pre2.length := by omega
    rw [harith, List.getD_eq_getElem?_getD, List.getElem?_append_right (le_refl _)]
    simp
  · intro t ht
    unfold undo
    rw [if_neg (by omega)]
  · intro t ht
    unfold redo
    rw [if_neg (by omega)]

/-- C4 (witness): concrete instance from the initial state with
snapshots [elA] and [elB]; the initial state itself has cursor 0, so
undo on it is a no-op. -/
theorem history_undo_redo_witness :
    (undo (saveHistory [elB] (saveHistory [elA] st0))).elements = [elA]
    ∧ undo st0 = st0 :=
  ⟨(history_undo_redo st0 [elA] [elB]).1,
    (history_undo_redo st0 [elA] [elB]).2.2.1 st0 rfl⟩

/-- C5: committing the 60 pairwise distinct snapshots g 0, ..., g 59
onto an empty history leaves exactly the last 50 retrievable (the
earliest 10 evicted), with the cursor on the 50th entry (index 49) and
the live elements equal to the last snapshot; commit itself truncates
the redo tail, appends, advances the cursor and evicts the oldest entry
beyond capacity 50 (saveHistory_history). -/
theorem history_capacity (g : ℕ → List CanvasElement) (s0 : AppState)
    (h0 : s0.history = []) :
    (commitAll ((List.range 60).map g) s0).history = ((List.range 60).map g).drop 10
    ∧ (commitAll ((List.range 60).map g) s0).history.length = 50
    ∧ (commitAll ((List.range 60).map g) s0).historyStep = 49
    ∧ (commitAll ((List.range 60).map g) s0).elements = g 59 := by
  have hL : ((List.range 60).map g) ≠ [] := by simp
  obtain ⟨hh, hs, he⟩ := commitAll_from_empty ((List.range 60).map g) s0 h0 hL
  have hlen60 : ((List.range 60).map g).length = 60 := by simp
  have hlenh : (commitAll ((List.range 60).map g) s0).history.length = 50 := by
    rw [hh, List.length_drop, hlen60]
  have hglast : ((List.range 60).map g).getLast? = some (g 59) := by
    rw [show (60 : ℕ) = 59 + 1 from rfl, List.range_succ, List.map_append]
    exact List.getLast?_concat _
  refine ⟨?_, hlenh, ?_, ?_⟩
  · rw [hh, hlen60]
  · rw [hs, hlenh]
  · rw [hglast] at he
    exact (Option.some.injEq _ _ ▸ he).symm

/-- C5 (witness): the concrete snapshot family snapW committed onto the
empty-history state leaves the cursor at 49. -/
theorem history_capacity_witness :
    (commitAll ((List.range 60).map snapW) stEmptyHist).historyStep = 49 :=
  (history_capacity snapW stEmptyHist rfl).2.2.1

/-- C6 (counterexample): a rectangle whose centroid lies at distance
exactly max(|w|, |h|)/2 + radius from the cursor (centroid (1, 1),
cursor (1, 4), threshold 3) is removed by the code, although the
claimed strict predicate (distance less than the threshold) does not
hold, so the claim's rectangle condition is wrong at the boundary. -/
theorem eraser_strict_cex :
    eraseElements ((1 : ℚ), 4) stEraseC = []
    ∧ ¬ SqLt (distSqV ((0 : ℚ) + 2 / 2, (0 : ℚ) + 2 / 2) ((1 : ℚ), 4))
        (max |(2 : ℚ)| |(2 : ℚ)| / 2 + 1 * 2) := by
  constructor
  · simp [eraseElements, stEraseC, eraseKeep, eRectC, hypotGtB, sqr]
    norm_num
  · simp [SqLt, distSqV, sqr]
    norm_num

/-- C6 (amended): in one eraser evaluation at world position pos with
radius = size * 2, elements on other layers are never removed; a stroke
is removed iff some constituent point is strictly within the radius; a
rectangle or circle is removed iff the centroid distance is at most (not
strictly below) max(|w|, |h|)/2 + radius; a line is removed iff the
segment distance is at most max(5, size) + 5; a text element is removed
iff its anchor distance is at most (not strictly below) 20; elements
whose kind-specific fields are missing are kept.  Distance comparisons
are stated through their squares (SqLt, SqLe, distToSegSq). -/
theorem eraser_spec (pos : ℚ × ℚ) (s : AppState) (el : CanvasElement)
    (hmem : el ∈ s.elements) :
    (el.layerId ≠ s.activeLayerId → el ∈ eraseElements pos s)
    ∧ (el.layerId = s.activeLayerId →
        (∀ ps, el.type = ElementType.stroke → el.points = some ps →
          (el ∉ eraseElements pos s ↔
            ∃ p ∈ ps, SqLt (distSqV (p.x, p.y) pos) (s.currentSize * 2)))
        ∧ (∀ x y w h, (el.type = ElementType.rectangle ∨ el.type = ElementType.circle) →
            el.x = some x → el.y = some y → el.width = some w → el.height = some h →
            (el ∉ eraseElements pos s ↔
              SqLe (distSqV (x + w / 2, y + h / 2) pos) (max |w| |h| / 2 + s.currentSize * 2)))
        ∧ (∀ x y w h, el.type = ElementType.line →
            el.x = some x → el.y = some y → el.width = some w → el.height = some h →
            (el ∉ eraseElements pos s ↔
              distToSegSq pos (x, y) (x + w, y + h) ≤ sqr (max 5 s.currentSize + 5)))
        ∧ (∀ x y, el.type = ElementType.text → el.x = some x → el.y = some y →
            (el ∉ eraseElements pos s ↔ SqLe (distSqV (x, y) pos) 20))
        ∧ (el.type = ElementType.stroke → el.points = none → el ∈ eraseElements pos s)
        ∧ ((el.type = ElementType.rectangle ∨ el.type = ElementType.circle) →
            el.x = none → el ∈ eraseElements pos s)
        ∧ (el.type = ElementType.line →
            (el.x = none ∨ el.width = none ∨ el.height = none) → el ∈ eraseElements pos s)
        ∧ (el.type = ElementType.text → el.x = none → el ∈ eraseElements pos s)) := by
  have hkeep : el ∈ eraseElements pos s ↔
      eraseKeep pos s.activeLayerId s.currentSize el = true := by
    unfold eraseElements
    rw [List.mem_filter]
    simp [hmem]
  constructor
  · intro hla
    rw [hkeep]
    simp [eraseKeep, hla]
  · intro hla
    refine ⟨?_, ?_, ?_, ?_, ?_, ?_, ?_, ?_⟩
    · intro ps ht hp
      rw [hkeep]
      simp [eraseKeep, hla, ht, hp, hypotLtB, SqLt, distSqV, sqr]
    · intro x y w h ht hx hy hw hh
      rw [hkeep]
      rcases ht with ht | ht <;>
        simp [eraseKeep, hla, ht, hx, hy, hw, hh, hypotGtB, SqLe, distSqV, sqr, not_lt,
          not_or]
    · intro x y w h ht hx hy hw hh
      rw [hkeep]
      have h5 : (0 : ℚ) ≤ max 5 s.currentSize + 5 := by
        have := le_max_left (5 : ℚ) s.currentSize
        linarith
      simp [eraseKeep, hla, ht, hx, hy, hw, hh, distSegGtB, not_lt, not_or, h5, sqr]
    · intro x y ht hx hy
      rw [hkeep]
      simp [eraseKeep, hla, ht, hx, hy, hypotGtB, SqLe, distSqV, sqr, not_lt, not_or]
    · intro ht hp
      rw [hkeep]
      simp [eraseKeep, hla, ht, hp]
    · intro ht hx
      rw [hkeep]
      rcases ht with ht | ht <;> simp [eraseKeep, hla, ht, hx]
    · intro ht hx
      rw [hkeep]
      rcases hx with hx | hx | hx <;> simp [eraseKeep, hla, ht, hx]
    · intro ht hx
      rw [hkeep]
      simp [eraseKeep, hla, ht, hx]

/-- C6 (witness): the stroke eStrokeW on the active layer of stEraseW is
removed by an eraser evaluation at (0, 0) exactly when one of its points
is strictly within the radius. -/
theorem eraser_spec_witness :
    eStrokeW ∉ eraseElements (0, 0) stEraseW ↔
      ∃ p ∈ [pt0], SqLt (distSqV (p.x, p.y) ((0 : ℚ), (0 : ℚ)))
        (stEraseW.currentSize * 2) :=
  ((eraser_spec (0, 0) stEraseW eStrokeW (by simp [stEraseW])).2 rfl).1 [pt0] rfl rfl

/-- C7 (counterexample): a pen gesture against an invisible but unlocked
active layer is not rejected: pointer-up commits a new element and a new
history entry, contradicting the claim that invisible layers reject
commits. -/
theorem invisible_layer_commit_cex :
    (handlePointerUp "e1" true [] none pt0 stInvisible).elements.length = 1
    ∧ (handlePointerUp "e1" true [] none pt0 stInvisible).history.length = 2
    ∧ (getActiveLayer stInvisible).map Layer.visible = some false
    ∧ (getActiveLayer stInvisible).map Layer.locked = some false := by
  refine ⟨?_, ?_, ?_, ?_⟩ <;>
    simp [handlePointerUp, stInvisible, getActiveLayer, saveHistory, getSplinePoints]

/-- C7 (amended): a new element commit targeting a locked or nonexistent
active layer is silently rejected: the pointer-down guard refuses to
start the gesture and pointer-up returns the state unchanged (no element
created, no history entry), for every tool, in-progress point list and
drag origin.  Invisible layers are not checked and accept commits. -/
theorem locked_or_missing_layer_rejects (s : AppState) (newId : String) (d : Bool)
    (cp : List Pt) (ds : Option Pt) (ep : Pt)
    (h : getActiveLayer s = none ∨ ∃ l, getActiveLayer s = some l ∧ l.locked = true) :
    canStartGesture s = false
    ∧ handlePointerUp newId d cp ds ep s = s := by
  rcases h with h | ⟨l, hl, hlk⟩
  · constructor
    · simp [canStartGesture, h]
    · by_cases hm : s.selectedTool = ToolType.move <;>
        cases d <;> simp [handlePointerUp, h, hm]
  · constructor
    · simp [canStartGesture, hl, hlk]
    · by_cases hm : s.selectedTool = ToolType.move <;>
        cases d <;> simp [handlePointerUp, hl, hlk, hm]

/-- C7 (witness): the locked-layer state rejects both the gesture start
and the pointer-up commit. -/
theorem locked_or_missing_layer_rejects_witness :
    canStartGesture stLocked = false
    ∧ handlePointerUp "w7" true [] none pt0 stLocked = stLocked :=
  locked_or_missing_layer_rejects stLocked "w7" true [] none pt0
    (Or.inr ⟨⟨"L", "Layer 1", true, true⟩, by simp [getActiveLayer, stLocked], rfl⟩)

/-- C8: loading a parsed document whose elements field is present
succeeds with no error: the elements are installed, zoom resets to 1,
pan resets to (0, 0), history resets to the single loaded snapshot with
cursor 0; missing or empty layers are replaced by the single default
layer, and the active layer id becomes the first layer's id in either
case.  Malformed JSON (none) or a missing elements field returns the
state completely unchanged, with an error surfaced. -/
theorem load_spec (s : AppState) :
    (∀ raw : RawDoc, ∀ es, raw.elements = some es →
        (loadDoc (some raw) s).2 = false
        ∧ (loadDoc (some raw) s).1.elements = es
        ∧ (loadDoc (some raw) s).1.zoom = 1
        ∧ (loadDoc (some raw) s).1.pan = (0, 0)
        ∧ (loadDoc (some raw) s).1.history = [es]
        ∧ (loadDoc (some raw) s).1.historyStep = 0
        ∧ ((raw.layers = none ∨ raw.layers = some []) →
            (loadDoc (some raw) s).1.layers = [defaultLayer]
            ∧ (loadDoc (some raw) s).1.activeLayerId = defaultLayer.id)
        ∧ (∀ ls, raw.layers = some ls → ls ≠ [] →
            (loadDoc (some raw) s).1.layers = ls
            ∧ (loadDoc (some raw) s).1.activeLayerId = (ls.getD 0 defaultLayer).id))
    ∧ loadDoc none s = (s, true)
    ∧ (∀ raw : RawDoc, raw.elements = none → loadDoc (some raw) s = (s, true)) := by
  refine ⟨?_, rfl, ?_⟩
  · intro raw es hes
    refine ⟨?_, ?_, ?_, ?_, ?_, ?_, ?_, ?_⟩
    · simp [loadDoc, hes]
    · simp [loadDoc, hes]
    · simp [loadDoc, hes]
    · simp [loadDoc, hes]
    · simp [loadDoc, hes]
    · simp [loadDoc, hes]
    · rintro (hl | hl) <;> simp [loadDoc, hes, hl]
    · intro ls hl hne
      have hpos : 0 < ls.length := List.length_pos.mpr hne
      constructor <;> simp [loadDoc, hes, hl, hpos]
  · intro raw hes
    simp [loadDoc, hes]

/-- C8 (witness): loading the concrete document with empty elements and
empty layers from the initial state surfaces no error and resets zoom. -/
theorem load_spec_witness :
    (loadDoc (some rawW) st0).2 = false ∧ (loadDoc (some rawW) st0).1.zoom = 1 :=
  ⟨((load_spec st0).1 rawW [] rfl).1, ((load_spec st0).1 rawW [] rfl).2.2.1⟩

/-- C9: deleting a layer is rejected when it would leave no layer (the
delete control only exists with more than one layer); with at least two
layers and distinct layer ids, after the deletion at least one layer
remains and the active-layer id still resolves to a present layer; when
the deleted layer was active, the active id is reassigned to the last
(topmost) remaining layer. -/
theorem delete_layer_spec (s : AppState) (d : String)
    (hnd : (s.layers.map Layer.id).Nodup)
    (hact : s.activeLayerId ∈ s.layers.map Layer.id) :
    (s.layers.length ≤ 1 → deleteLayer d s = s)
    ∧ (2 ≤ s.layers.length →
        (deleteLayer d s).layers = s.layers.filter (fun l => l.id != d)
        ∧ (deleteLayer d s).layers ≠ []
        ∧ (deleteLayer d s).activeLayerId ∈ (deleteLayer d s).layers.map Layer.id
        ∧ (s.activeLayerId = d →
            some (deleteLayer d s).activeLayerId =
              ((s.layers.filter (fun l => l.id != d)).getLast?).map Layer.id)) := by
  constructor
  · intro h1
    unfold deleteLayer
    rw [if_neg (by omega)]
  · intro h2
    have hgt : 1 < s.layers.length := by omega
    have hlayers : (deleteLayer d s).layers = s.layers.filter (fun l => l.id != d) := by
      unfold deleteLayer onDelete
      rw [if_pos hgt]
    have hne : s.layers.filter (fun l => l.id != d) ≠ [] := by
      obtain ⟨a, tl, hab1⟩ := List.exists_cons_of_ne_nil
        (show s.layers ≠ [] by intro hh; rw [hh] at h2; simp at h2)
      have htl : tl ≠ [] := by
        intro hh
        rw [hab1, hh] at h2
        simp at h2
      obtain ⟨b, rest, hab2⟩ := List.exists_cons_of_ne_nil htl
      have hab : s.layers = a :: b :: rest := by rw [hab1, hab2]
      have hnd' := hnd
      rw [hab] at hnd'
      simp only [List.map_cons, List.nodup_cons, List.mem_cons, List.mem_map] at hnd'
      have hidab : a.id ≠ b.id := fun hh => hnd'.1 (Or.inl hh)
      by_cases hda : a.id = d
      · refine List.ne_nil_of_mem (layer_mem_filter_of_ne b d ?_ s.layers (by rw [hab]; simp))
        rw [← hda]
        exact fun hh => hidab hh.symm
      · exact List.ne_nil_of_mem (layer_mem_filter_of_ne a d hda s.layers (by rw [hab]; simp))
    by_cases had : s.activeLayerId = d
    · have hactive : (deleteLayer d s).activeLayerId =
          ((s.layers.filter (fun l => l.id != d)).getLast hne).id := by
        unfold deleteLayer onDelete
        rw [if_pos hgt]
        simp only [had]
        rw [if_pos trivial, List.getLast?_eq_getLast _ hne]
      refine ⟨hlayers, by rw [hlayers]; exact hne, ?_, ?_⟩
      · rw [hactive, hlayers]
        exact List.mem_map_of_mem Layer.id (List.getLast_mem hne)
      · intro _
        rw [hactive, List.getLast?_eq_getLast _ hne]
        rfl
    · have hactive : (deleteLayer d s).activeLayerId = s.activeLayerId := by
        unfold deleteLayer onDelete
        rw [if_pos hgt]
        simp only [if_neg had]
      refine ⟨hlayers, by rw [hlayers]; exact hne, ?_, ?_⟩
      · rw [hactive, hlayers]
        obtain ⟨la, hla, hlaid⟩ := List.mem_map.mp hact
        have hlad : la.id ≠ d := by rw [hlaid]; exact had
        exact List.mem_map.mpr ⟨la, layer_mem_filter_of_ne la d hlad s.layers hla, hlaid⟩
      · intro hcontra
        exact absurd hcontra had

/-- C9 (witness): deleting the active layer L2 of the concrete two-layer
state leaves the active id resolving to a remaining layer. -/
theorem delete_layer_spec_witness :
    (deleteLayer "L2" stTwoLayers).activeLayerId
      ∈ (deleteLayer "L2" stTwoLayers).layers.map Layer.id :=
  ((delete_layer_spec stTwoLayers "L2" (by simp [stTwoLayers])
    (by simp [stTwoLayers])).2 (by simp [stTwoLayers])).2.2.1

/-- C10: a pointer-up of an eraser gesture on an unlocked, existing
active layer always calls the history commit with the current element
set: the elements are unchanged, yet the redo tail beyond the cursor is
truncated, a (possibly duplicate) snapshot is appended (evicting the
oldest entry beyond capacity), and the cursor advances to the new
tail. -/
theorem eraser_up_commits (s : AppState) (newId : String) (cp : List Pt)
    (ds : Option Pt) (ep : Pt) (l : Layer)
    (ht : s.selectedTool = ToolType.eraser)
    (hl : getActiveLayer s = some l) (hlk : l.locked = false) :
    handlePointerUp newId true cp ds ep s = saveHistory s.elements s
    ∧ (handlePointerUp newId true cp ds ep s).elements = s.elements
    ∧ (handlePointerUp newId true cp ds ep s).history =
        (if 50 < (s.history.take (s.historyStep + 1)).length + 1
         then (s.history.take (s.historyStep + 1)).drop 1
         else s.history.take (s.historyStep + 1)) ++ [s.elements]
    ∧ (handlePointerUp newId true cp ds ep s).historyStep =
        (handlePointerUp newId true cp ds ep s).history.length - 1 := by
  have h1 : handlePointerUp newId true cp ds ep s = saveHistory s.elements s := by
    simp [handlePointerUp, ht, hl, hlk]
  refine ⟨h1, ?_, ?_, ?_⟩
  · rw [h1]; rfl
  · rw [h1]; exact saveHistory_history s.elements s
  · rw [h1]; exact saveHistory_step s.elements s

/-- C10 (witness): the concrete eraser-tool state commits a history
snapshot at pointer-up even though no element was removed. -/
theorem eraser_up_commits_witness :
    handlePointerUp "w10" true [] none pt0 stEraserTool
      = saveHistory stEraserTool.elements stEraserTool :=
  (eraser_up_commits stEraserTool "w10" [] none pt0 ⟨"L", "Layer 1", true, false⟩ rfl
    (by simp [getActiveLayer, stEraserTool]) rfl).1

end HWB
